import Mathlib

/-!
Shallow embedding of the airhornbot playback core (`cmd/bot/bot.go`).

Conventions used throughout:
* Go machine integers are modelled as `Int` (weights, draws) or `Nat`
  (lengths, delays); byte values are `Nat`s below 256.
* `rand.Intn` is made explicit: every function that draws randomness takes
  the would-be result of the draw as an extra parameter; `rand.Intn(n)`
  panics when `n <= 0`, which is modelled with `Except Unit`.
* Mutation is modelled by returning the updated value.
-/

namespace Airhorn

/-- A sound clip (`Sound` struct, bot.go lines 66-77): name, selection
weight, post-play delay in milliseconds, and the decoded frame buffer. -/
structure Sound where
  name : String
  weight : Int
  partDelay : Nat
  buffer : List (List Nat)
  deriving DecidableEq

/-- `createSound` (bot.go lines 352-359): a clip starts with an empty buffer. -/
def createSound (name : String) (weight : Int) (partDelay : Nat) : Sound :=
  Sound.mk name weight partDelay []

/-- `SoundCollection` (bot.go lines 56-63).  The `Prefix`/`Commands` fields
only feed the file path and the chat-command router and are not needed by any
claim, so they are omitted.  An inductive is used because Go's
`ChainWith *SoundCollection` is a recursive pointer. -/
inductive SoundCollection where
  | mk (sounds : List Sound) (chainWith : Option SoundCollection) (soundRange : Int)

def SoundCollection.sounds : SoundCollection → List Sound
  | SoundCollection.mk s _ _ => s

def SoundCollection.chainWith : SoundCollection → Option SoundCollection
  | SoundCollection.mk _ c _ => c

def SoundCollection.soundRange : SoundCollection → Int
  | SoundCollection.mk _ _ r => r

/-- The running total `sc.soundRange += sound.Weight` accumulated by the load
loop (bot.go lines 361-366). -/
def sumWeights (l : List Sound) : Int :=
  l.foldl (fun acc s => acc + s.weight) 0

/-- `SoundCollection.Load` (bot.go lines 361-366), restricted to its effect on
`soundRange`; the per-clip file decoding of `sound.Load(sc)` is modelled
separately by `soundLoadFrames`. -/
def SoundCollection.Load : SoundCollection → SoundCollection
  | SoundCollection.mk s c r => SoundCollection.mk s c (r + sumWeights s)

/-- `randomRange` (bot.go lines 452-455): `rand.Intn(max-min) + min`, where
`draw` stands for the value returned by `rand.Intn(max-min)`.  `rand.Intn`
panics when its argument is not positive, modelled with `Except.error`. -/
def randomRange (mn mx draw : Int) : Except Unit Int :=
  if mx - mn ≤ 0 then Except.error () else Except.ok (draw + mn)

/-- The accumulation loop inside `SoundCollection.Random`
(bot.go lines 374-380): `i += sound.Weight; if number < i return sound`. -/
def soundsWalk : List Sound → Int → Int → Option Sound
  | [], _, _ => none
  | s :: rest, i, number =>
    if number < i + s.weight then some s else soundsWalk rest (i + s.weight) number

/-- `SoundCollection.Random` (bot.go lines 368-382): draw
`randomRange(0, soundRange)` and walk the clip list; falls through to `nil`
(here `Option.none`) if no cumulative weight exceeds the draw. -/
def SoundCollection.Random (sc : SoundCollection) (draw : Int) : Except Unit (Option Sound) :=
  match randomRange 0 sc.soundRange draw with
  | Except.error e => Except.error e
  | Except.ok number => Except.ok (soundsWalk sc.sounds 0 number)

/-! Helper lemmas about `sumWeights` and the walk. -/

lemma foldl_weight_shift (l : List Sound) (a : Int) :
    l.foldl (fun acc s => acc + s.weight) a = a + sumWeights l := by
  induction l generalizing a with
  | nil => simp [sumWeights]
  | cons s rest ih =>
    simp only [List.foldl_cons, sumWeights]
    rw [ih, ih (0 + s.weight)]
    ring

lemma sumWeights_cons (s : Sound) (rest : List Sound) :
    sumWeights (s :: rest) = s.weight + sumWeights rest := by
  simp only [sumWeights, List.foldl_cons]
  rw [foldl_weight_shift]
  simp [sumWeights]

lemma sumWeights_nonneg (l : List Sound) (h : ∀ s ∈ l, 0 ≤ s.weight) :
    0 ≤ sumWeights l := by
  induction l with
  | nil => simp [sumWeights]
  | cons s rest ih =>
    rw [sumWeights_cons]
    have hs := h s (by simp)
    have hr := ih (fun x hx => h x (by simp [hx]))
    omega

lemma weight_le_sumWeights (l : List Sound) (h : ∀ s ∈ l, 0 ≤ s.weight)
    (s : Sound) (hm : s ∈ l) : s.weight ≤ sumWeights l := by
  induction l with
  | nil => simp at hm
  | cons t rest ih =>
    rw [sumWeights_cons]
    rcases List.mem_cons.mp hm with h1 | h2
    · subst h1
      have := sumWeights_nonneg rest (fun x hx => h x (by simp [hx]))
      omega
    · have ht := h t (by simp)
      have := ih (fun x hx => h x (by simp [hx])) h2
      omega

/-- If the draw lies strictly below the remaining total (and at least at the
accumulator), the walk hits some clip of the list. -/
lemma soundsWalk_total (l : List Sound) :
    ∀ acc number : Int, acc ≤ number → number < acc + sumWeights l →
      ∃ s, s ∈ l ∧ soundsWalk l acc number = some s := by
  induction l with
  | nil =>
    intro acc number h1 h2
    rw [sumWeights] at h2
    simp at h2
    omega
  | cons s rest ih =>
    intro acc number h1 h2
    rw [sumWeights_cons] at h2
    by_cases hlt : number < acc + s.weight
    · exact ⟨s, by simp, by simp [soundsWalk, hlt]⟩
    · push_neg at hlt
      obtain ⟨t, ht, hw⟩ := ih (acc + s.weight) number hlt (by omega)
      exact ⟨t, by simp [ht], by simp [soundsWalk, hw]; omega⟩

/-- The walk returns the clip at the first index whose cumulative weight
strictly exceeds the draw (weights assumed nonnegative so that cumulative
weights are monotone). -/
lemma soundsWalk_get (l : List Sound) :
    ∀ (acc number : Int) (i : Nat) (hi : i < l.length),
      (∀ s ∈ l, 0 ≤ s.weight) →
      acc + sumWeights (l.take i) ≤ number →
      number < acc + sumWeights (l.take (i + 1)) →
      soundsWalk l acc number = some (l.get ⟨i, hi⟩) := by
  induction l with
  | nil => intro acc number i hi; simp at hi
  | cons s rest ih =>
    intro acc number i hi hnn hlo hhi
    cases i with
    | zero =>
      simp only [List.take_zero, sumWeights, List.foldl_nil, add_zero] at hlo
      rw [List.take_succ_cons, List.take_zero, sumWeights_cons] at hhi
      simp only [sumWeights, List.foldl_nil, add_zero] at hhi
      simp [soundsWalk]
      omega
    | succ j =>
      rw [List.take_succ_cons, sumWeights_cons] at hlo hhi
      have hjw : 0 ≤ sumWeights (rest.take j) := by
        refine sumWeights_nonneg _ (fun x hx => hnn x ?_)
        exact List.mem_cons_of_mem _ (List.mem_of_mem_take hx)
      have hnotlt : ¬ number < acc + s.weight := by omega
      simp only [soundsWalk, hnotlt, if_false]
      exact ih (acc + s.weight) number j (by simpa using hi)
        (fun x hx => hnn x (List.mem_cons_of_mem _ hx)) (by omega) (by omega)

/-- With nonnegative weights and a positive last weight, the maximal draw
`acc + total - 1` selects the last clip. -/
lemma soundsWalk_last (l : List Sound) :
    ∀ acc : Int, (∀ s ∈ l, 0 ≤ s.weight) →
      ∀ sl, l.getLast? = some sl → 0 < sl.weight →
        soundsWalk l acc (acc + sumWeights l - 1) = some sl := by
  induction l with
  | nil => intro acc _ sl h; simp at h
  | cons s rest ih =>
    intro acc hnn sl hlast hpos
    cases rest with
    | nil =>
      simp only [List.getLast?_singleton, Option.some.injEq] at hlast
      subst hlast
      have hlt : acc + sumWeights [s] - 1 < acc + s.weight := by
        rw [sumWeights_cons]
        simp [sumWeights]
      simp [soundsWalk, hlt]
    | cons t rest2 =>
      rw [List.getLast?_cons_cons] at hlast
      have hmem : sl ∈ t :: rest2 := by
        obtain ⟨hne, h2⟩ := List.mem_getLast?_eq_getLast (Option.mem_def.mpr hlast)
        rw [h2]
        exact List.getLast_mem hne
      have hsum : 0 < sumWeights (t :: rest2) := by
        have h1 := weight_le_sumWeights (t :: rest2)
          (fun x hx => hnn x (List.mem_cons_of_mem _ hx)) sl hmem
        omega
      have hnotlt : ¬ acc + sumWeights (s :: t :: rest2) - 1 < acc + s.weight := by
        rw [sumWeights_cons]
        omega
      simp only [soundsWalk, hnotlt, if_false]
      have := ih (acc + s.weight) (fun x hx => hnn x (List.mem_cons_of_mem _ hx)) sl hlast hpos
      rw [sumWeights_cons]
      calc soundsWalk (t :: rest2) (acc + s.weight) (acc + (s.weight + sumWeights (t :: rest2)) - 1)
          = soundsWalk (t :: rest2) (acc + s.weight) (acc + s.weight + sumWeights (t :: rest2) - 1) := by
            ring_nf
        _ = some sl := this

/-! ### The DCA clip loader (`Sound.Load`, bot.go lines 389-428)

The resource is modelled as `Option (List Nat)`: `none` for a missing file
(`os.Open` fails), `some bytes` for the file's byte content, each byte below
256.  The read loop:
* `binary.Read(file, LittleEndian, &opuslen)` reads two bytes into an
  **int16**; `io.EOF` (no bytes left) and `io.ErrUnexpectedEOF` (exactly one
  byte left) both make `Load` return `nil`, i.e. success;
* `opuslen`'s sign matters: two bytes whose 16-bit value is `>= 0x8000` give
  a negative `int16` and `make([]byte, opuslen)` panics;
* `binary.Read(file, LittleEndian, &InBuf)` with fewer than `opuslen` bytes
  left fails, and the loop returns that error while keeping the frames
  already appended to `s.buffer`. -/

inductive LoadResult where
  | ok
  | err
  | panicked
  | openErr
  deriving DecidableEq

/-- The read loop of `Sound.Load`, returning the frames appended to the
buffer together with how the loop ended. -/
def soundLoadFrames : List Nat → List (List Nat) × LoadResult
  | [] => ([], LoadResult.ok)
  | [_] => ([], LoadResult.ok)
  | b0 :: b1 :: rest =>
    if 32768 ≤ b0 + 256 * b1 then ([], LoadResult.panicked)
    else if rest.length < b0 + 256 * b1 then ([], LoadResult.err)
    else
      (rest.take (b0 + 256 * b1) :: (soundLoadFrames (rest.drop (b0 + 256 * b1))).1,
       (soundLoadFrames (rest.drop (b0 + 256 * b1))).2)
termination_by l => l.length
decreasing_by
  all_goals simp [List.length_drop]; omega

/-- `Sound.Load` (bot.go lines 389-428): appends the decoded frames to the
clip's buffer; a missing resource leaves the buffer untouched. -/
def Sound.Load (s : Sound) (resource : Option (List Nat)) : Sound × LoadResult :=
  match resource with
  | none => (s, LoadResult.openErr)
  | some bytes =>
    (Sound.mk s.name s.weight s.partDelay (s.buffer ++ (soundLoadFrames bytes).1),
     (soundLoadFrames bytes).2)

/-- The 16-bit little-endian length-prefixed encoding of a frame sequence
(what the spec describes as the resource layout). -/
def encodeFrames : List (List Nat) → List Nat
  | [] => []
  | f :: fs => f.length % 256 :: f.length / 256 :: (f ++ encodeFrames fs)

lemma soundLoadFrames_append (frames : List (List Nat)) (rest : List Nat)
    (h : ∀ f ∈ frames, f.length < 32768) :
    soundLoadFrames (encodeFrames frames ++ rest) =
      (frames ++ (soundLoadFrames rest).1, (soundLoadFrames rest).2) := by
  induction frames with
  | nil => simp [encodeFrames]
  | cons f fs ih =>
    have hf : f.length < 32768 := h f (by simp)
    have hlen : f.length % 256 + 256 * (f.length / 256) = f.length := Nat.mod_add_div _ _
    have hcons : encodeFrames (f :: fs) ++ rest =
        f.length % 256 :: f.length / 256 :: (f ++ (encodeFrames fs ++ rest)) := by
      simp [encodeFrames]
    rw [hcons]
    rw [soundLoadFrames]
    rw [hlen]
    have h1 : ¬ 32768 ≤ f.length := by omega
    have h2 : ¬ (f ++ (encodeFrames fs ++ rest)).length < f.length := by
      simp
    rw [if_neg h1, if_neg h2]
    have htake : (f ++ (encodeFrames fs ++ rest)).take f.length = f := List.take_left f _
    have hdrop : (f ++ (encodeFrames fs ++ rest)).drop f.length = encodeFrames fs ++ rest :=
      List.drop_left f _
    rw [htake, hdrop, ih (fun g hg => h g (by simp [hg]))]
    simp

/-- Decoding inverts encoding as long as every frame length stays below
`0x8000` (so that the signed 16-bit read stays nonnegative). -/
lemma soundLoadFrames_roundTrip (frames : List (List Nat))
    (h : ∀ f ∈ frames, f.length < 32768) :
    soundLoadFrames (encodeFrames frames) = (frames, LoadResult.ok) := by
  have := soundLoadFrames_append frames [] h
  simpa [soundLoadFrames] using this

/-! ### Play requests, the guild queue, and the playback driver -/

/-- `Play` (bot.go lines 43-54).  `sound` is an `Option` because the Go field
is a pointer (`createPlay` can store a `nil` result of `Random()`); `next` is
the optional chained follow-up. -/
inductive Play where
  | mk (guildID channelID userID : String) (sound : Option Sound)
       (next : Option Play) (forced : Bool)

def Play.guildID : Play → String
  | Play.mk g _ _ _ _ _ => g

def Play.channelID : Play → String
  | Play.mk _ c _ _ _ _ => c

def Play.userID : Play → String
  | Play.mk _ _ u _ _ _ => u

def Play.sound : Play → Option Sound
  | Play.mk _ _ _ s _ _ => s

def Play.next : Play → Option Play
  | Play.mk _ _ _ _ n _ => n

def Play.forced : Play → Bool
  | Play.mk _ _ _ _ _ f => f

/-- `MAX_QUEUE_SIZE` (bot.go line 36). -/
def MAX_QUEUE_SIZE : Nat := 6

/-- What `enqueuePlay` did with a (successfully created) play. -/
inductive EnqueueAction where
  | started (p : Play)
  | queued
  | droppedFull

/-- `enqueuePlay` (bot.go lines 505-517), viewed from one guild: the state is
that guild's entry in the `queues` map (`none` = absent), a buffered channel
of capacity `MAX_QUEUE_SIZE` modelled as a FIFO list.
* entry present and `len < MAX_QUEUE_SIZE`: append (channel send);
* entry present and full: fall through — the play is dropped, nothing
  signals the submitter;
* entry absent: create an empty queue for the guild and call
  `playSound(play, nil)` directly, without enqueuing the play. -/
def enqueuePlay (q : Option (List Play)) (p : Play) : Option (List Play) × EnqueueAction :=
  match q with
  | some l =>
    if l.length < MAX_QUEUE_SIZE then (some (l ++ [p]), EnqueueAction.queued)
    else (some l, EnqueueAction.droppedFull)
  | none => (some [], EnqueueAction.started p)

/-- Folding a burst of submissions through `enqueuePlay`. -/
def submitAll (q : Option (List Play)) (ps : List Play) : Option (List Play) :=
  ps.foldl (fun acc p => (enqueuePlay acc p).1) q

/-- A voice connection: the core only reads/updates its `ChannelID`. -/
structure VC where
  channelID : String
  deriving DecidableEq

/-- Observable actions of one playback run, in program order. -/
inductive Event where
  | join (guildID channelID : String)
  | joinFail (guildID channelID : String)
  | changeChannel (channelID : String)
  | sleepMs (ms : Nat)
  | stats
  | speaking (b : Bool)
  | frame (bytes : List Nat)
  | deleteQueue (guildID : String)
  | disconnect
  deriving DecidableEq

/-- How a `playSound` invocation returned. -/
inductive PSResult where
  | ok
  | joinErr
  | nilSound
  | fuelOut
  deriving DecidableEq

/-- `Sound.Play` (bot.go lines 431-438): speaking on, every buffered frame in
order, speaking off. -/
def Sound.playEvents (s : Sound) : List Event :=
  Event.speaking true :: (s.buffer.map Event.frame ++ [Event.speaking false])

/-- The channel-change step (bot.go lines 572-575). -/
def chMoveEvents (vc : VC) (p : Play) : List Event :=
  if vc.channelID = p.channelID then []
  else [Event.changeChannel p.channelID, Event.sleepMs 125]

/-- Events of one play before the chain/queue continuation: optional channel
change, the fire-and-forget stats call, the 32ms pre-roll, and the frames. -/
def prePlay (vc : VC) (p : Play) (s : Sound) : List Event :=
  chMoveEvents vc p ++ ([Event.stats, Event.sleepMs 32] ++ s.playEvents)

/-- `playSound` (bot.go lines 554-603) for an already-acquired voice
connection, i.e. starting at line 571.  `fuel` bounds the recursion depth
(each recursive `playSound` call consumes one unit); the result is the event
trace, the final state of the guild's queue entry, and the return status.
After the optional channel change the connection's channel is
`p.channelID`, which is what the chained and dequeued recursive calls see.
The queue inspection `len(queues[play.GuildID]) > 0` reads the queue as left
by the chained call (a deleted entry reads as length 0); the dequeue branch
discards the recursive call's error and returns `nil`. -/
def playAcquiredF : Nat → Play → VC → Option (List Play) →
    List Event × Option (List Play) × PSResult
  | 0, _, _, q => ([], q, PSResult.fuelOut)
  | Nat.succ fuel, p, vc, q =>
    match p.sound with
    | none => (chMoveEvents vc p ++ [Event.stats, Event.sleepMs 32], q, PSResult.nilSound)
    | some s =>
      match (match p.next with
             | some p2 => playAcquiredF fuel p2 (VC.mk p.channelID) q
             | none => ([], q, PSResult.ok)) with
      | (chainEvs, some (x :: restQ), _r) =>
        ((prePlay vc p s ++ chainEvs) ++ (playAcquiredF fuel x (VC.mk p.channelID) (some restQ)).1,
         (playAcquiredF fuel x (VC.mk p.channelID) (some restQ)).2.1, PSResult.ok)
      | (chainEvs, _, _r) =>
        ((prePlay vc p s ++ chainEvs) ++
           [Event.sleepMs s.partDelay, Event.deleteQueue p.guildID, Event.disconnect],
         none, PSResult.ok)

/-- `playSound` (bot.go lines 554-568 + the rest): with `vc = none` a fresh
join for `(play.GuildID, play.ChannelID)` is attempted; `joinOk` is the
outcome of `discord.ChannelVoiceJoin`.  On failure: log, delete the guild's
queue entry, return the error — no retry.  On success the connection starts
on the requested channel.  With `vc = some _` the join is skipped. -/
def playSoundF (joinOk : Bool) (fuel : Nat) (p : Play) (vcOpt : Option VC)
    (q : Option (List Play)) : List Event × Option (List Play) × PSResult :=
  match vcOpt with
  | some vc => playAcquiredF fuel p vc q
  | none =>
    if joinOk then
      (Event.join p.guildID p.channelID :: (playAcquiredF fuel p (VC.mk p.channelID) q).1,
       (playAcquiredF fuel p (VC.mk p.channelID) q).2.1,
       (playAcquiredF fuel p (VC.mk p.channelID) q).2.2)
    else
      ([Event.joinFail p.guildID p.channelID], none, PSResult.joinErr)

/-- `createPlay` (bot.go lines 458-496).  `channel` is the result of
`getCurrentVoiceChannel` (none: warn and return `nil`); `draw1` and `draw2`
are the values drawn by `coll.Random()` and `coll.ChainWith.Random()`; a
panic inside either `Random` call is propagated. -/
def createPlay (userID guildID : String) (channel : Option String)
    (coll : SoundCollection) (sound : Option Sound) (draw1 draw2 : Int) :
    Except Unit (Option Play) :=
  match channel with
  | none => Except.ok none
  | some ch =>
    match (match sound with
           | some s => Except.ok (some s, true)
           | none =>
             match coll.Random draw1 with
             | Except.error e => Except.error e
             | Except.ok r => Except.ok (r, false)) with
    | Except.error e => Except.error e
    | Except.ok (snd, forcedFlag) =>
      match coll.chainWith with
      | none => Except.ok (some (Play.mk guildID ch userID snd none forcedFlag))
      | some target =>
        match target.Random draw2 with
        | Except.error e => Except.error e
        | Except.ok nextSnd =>
          Except.ok (some (Play.mk guildID ch userID snd
            (some (Play.mk guildID ch userID nextSnd none forcedFlag)) forcedFlag))

/-- Length of a guild's queue entry as Go reads it: a missing map entry
yields a nil channel and `len(nil chan) = 0`. -/
def chanLen : Option (List Play) → Nat
  | none => 0
  | some l => l.length

/-- Recognizes a voice-join attempt in a trace. -/
def Event.isJoinEv : Event → Bool
  | Event.join _ _ => true
  | Event.joinFail _ _ => true
  | _ => false

@[simp] lemma isJoinEv_changeChannel (c : String) :
    Event.isJoinEv (Event.changeChannel c) = false := rfl

@[simp] lemma isJoinEv_sleepMs (n : Nat) : Event.isJoinEv (Event.sleepMs n) = false := rfl

@[simp] lemma isJoinEv_stats : Event.isJoinEv Event.stats = false := rfl

@[simp] lemma isJoinEv_speaking (b : Bool) : Event.isJoinEv (Event.speaking b) = false := rfl

@[simp] lemma isJoinEv_frame (bs : List Nat) : Event.isJoinEv (Event.frame bs) = false := rfl

@[simp] lemma isJoinEv_deleteQueue (g : String) :
    Event.isJoinEv (Event.deleteQueue g) = false := rfl

@[simp] lemma isJoinEv_disconnect : Event.isJoinEv Event.disconnect = false := rfl

lemma prePlay_no_join (vc : VC) (p : Play) (s : Sound) :
    (prePlay vc p s).any Event.isJoinEv = false := by
  unfold prePlay chMoveEvents
  split <;> simp [Sound.playEvents, List.any_append, List.any_map, Function.comp,
    List.any_eq_false]

/-- A run that is handed a voice connection never attempts a voice join:
chained and dequeued plays reuse the session. -/
lemma playAcquiredF_no_join :
    ∀ (fuel : Nat) (p : Play) (vc : VC) (q : Option (List Play)),
      ((playAcquiredF fuel p vc q).1.any Event.isJoinEv) = false := by
  intro fuel
  induction fuel with
  | zero => intro p vc q; simp [playAcquiredF]
  | succ fuel ih =>
    intro p vc q
    rcases p with ⟨g, ch, u, snd, nxt, fc⟩
    rw [playAcquiredF]
    cases snd with
    | none =>
      simp only [Play.sound]
      unfold chMoveEvents
      split <;> simp
    | some s =>
      cases nxt with
      | none =>
        simp only [Play.sound, Play.next, Play.channelID, Play.guildID]
        rcases q with _ | ⟨_ | ⟨x, restQ⟩⟩
        · simp [List.any_append, prePlay_no_join]
        · simp [List.any_append, prePlay_no_join]
        · simp [List.any_append, prePlay_no_join, ih]
      | some p2 =>
        simp only [Play.sound, Play.next, Play.channelID, Play.guildID]
        rcases hrec : playAcquiredF fuel p2 (VC.mk ch) q with ⟨cev, cq, cr⟩
        have hcev : cev.any Event.isJoinEv = false := by
          have h0 := ih p2 (VC.mk ch) q
          rw [hrec] at h0
          exact h0
        rcases cq with _ | ⟨_ | ⟨x, restQ⟩⟩
        · simp [List.any_append, prePlay_no_join, hcev]
        · simp [List.any_append, prePlay_no_join, hcev]
        · simp [List.any_append, prePlay_no_join, hcev, ih]

/-! ### An interleaving model of `enqueuePlay`'s check-then-act

`enqueuePlay` reads `_, exists := queues[guild.ID]` (bot.go line 507) and
acts on the observation (lines 509-516) without holding a lock — the source
comments "yes, this isn't threadsafe, but its OK 99% of the time".  The
model below makes the two halves separate atomic steps for one guild:
`entry` is the presence of the guild's map entry, `queueLen` the channel
occupancy, `runs` the number of in-flight `playSound` call chains, and
`subs` the program counters of concurrent submitter goroutines.  A driver's
terminal step (bot.go lines 591-601) either consumes a queued item or
deletes the entry and ends the run. -/

inductive SubPC where
  | ready
  | checked (sawEntry : Bool)
  | done
  deriving DecidableEq

structure RaceState where
  entry : Bool
  queueLen : Nat
  runs : Nat
  subs : List SubPC
  deriving DecidableEq

inductive RAction where
  | check (i : Nat)
  | act (i : Nat)
  | finish
  deriving DecidableEq

def racyStep (s : RaceState) (a : RAction) : RaceState :=
  match a with
  | RAction.check i =>
    match s.subs[i]? with
    | some SubPC.ready => { s with subs := s.subs.set i (SubPC.checked s.entry) }
    | _ => s
  | RAction.act i =>
    match s.subs[i]? with
    | some (SubPC.checked true) =>
      if s.queueLen < MAX_QUEUE_SIZE then
        { s with queueLen := s.queueLen + 1, subs := s.subs.set i SubPC.done }
      else { s with subs := s.subs.set i SubPC.done }
    | some (SubPC.checked false) =>
      { s with entry := true, runs := s.runs + 1, subs := s.subs.set i SubPC.done }
    | _ => s
  | RAction.finish =>
    if s.runs = 0 then s
    else if 0 < s.queueLen then { s with queueLen := s.queueLen - 1 }
    else { s with entry := false, runs := s.runs - 1 }

/-- The same system when each submission's check and act run back-to-back
with nothing interleaved (an atomic `enqueuePlay`). -/
structure AState where
  entry : Bool
  queueLen : Nat
  runs : Nat
  deriving DecidableEq

inductive AAction where
  | submit
  | finish
  deriving DecidableEq

def atomicStep (s : AState) (a : AAction) : AState :=
  match a with
  | AAction.submit =>
    if s.entry then
      if s.queueLen < MAX_QUEUE_SIZE then { s with queueLen := s.queueLen + 1 } else s
    else { s with entry := true, runs := s.runs + 1 }
  | AAction.finish =>
    if s.runs = 0 then s
    else if 0 < s.queueLen then { s with queueLen := s.queueLen - 1 }
    else { s with entry := false, runs := s.runs - 1 }

/-- The single-flight invariant: at most one run per guild, and the map
entry is present exactly while a run is in flight. -/
def AInv (s : AState) : Prop := s.runs ≤ 1 ∧ (s.entry = true ↔ s.runs = 1)

lemma atomicStep_inv (s : AState) (a : AAction) (h : AInv s) : AInv (atomicStep s a) := by
  obtain ⟨h1, h2⟩ := h
  cases a with
  | submit =>
    cases hb : s.entry with
    | true =>
      have hr1 : s.runs = 1 := h2.mp hb
      simp only [atomicStep, hb, if_true]
      split <;> simp [AInv, hb, hr1]
    | false =>
      have hr0 : s.runs = 0 := by
        by_contra hne
        have hx : s.runs = 1 := by omega
        have := h2.mpr hx
        rw [hb] at this
        exact Bool.false_ne_true this
      simp [atomicStep, hb, AInv, hr0]
  | finish =>
    by_cases hr : s.runs = 0
    · simp only [atomicStep, if_pos hr]
      exact ⟨h1, h2⟩
    · by_cases hq : 0 < s.queueLen
      · simp only [atomicStep, if_neg hr, if_pos hq]
        exact ⟨h1, h2⟩
      · have hr1 : s.runs = 1 := by omega
        simp only [atomicStep, if_neg hr, if_neg hq]
        constructor
        · show s.runs - 1 ≤ 1
          omega
        · show false = true ↔ s.runs - 1 = 1
          simp [hr1]

lemma foldl_atomicStep_inv (acts : List AAction) :
    ∀ s : AState, AInv s → AInv (acts.foldl atomicStep s) := by
  induction acts with
  | nil => intro s h; exact h
  | cons a rest ih =>
    intro s h
    exact ih _ (atomicStep_inv s a h)

/-! ### Catalog literals used by the witnesses -/

/-- The `AIRHORN` collection literal (bot.go lines 80-101), `soundRange`
still zero as before `main`'s load loop. -/
def AIRHORN : SoundCollection :=
  SoundCollection.mk
    [createSound "default" 1000 250, createSound "reverb" 800 250,
     createSound "spam" 800 0, createSound "tripletap" 800 250,
     createSound "fourtap" 800 250, createSound "distant" 500 250,
     createSound "echo" 500 250, createSound "clownfull" 250 250,
     createSound "clownshort" 250 250, createSound "clownspam" 250 0,
     createSound "highfartlong" 200 250, createSound "highfartshort" 200 250,
     createSound "midshort" 100 250, createSound "truck" 10 250]
    none 0

/-- The `KHALED` collection literal (bot.go lines 158-170): `ChainWith`
points at `AIRHORN`. -/
def KHALED : SoundCollection :=
  SoundCollection.mk
    [createSound "one" 1 250, createSound "one_classic" 1 250,
     createSound "one_echo" 1 250]
    (some AIRHORN) 0

/-- The heap after `main`'s load loop as seen from `KHALED`: its own
`soundRange` accumulated and its chain target the (shared, already loaded)
`AIRHORN` — in Go the `ChainWith` pointer aliases the loaded object. -/
def loadedKHALED : SoundCollection :=
  SoundCollection.Load
    (SoundCollection.mk KHALED.sounds (some (SoundCollection.Load AIRHORN)) 0)

/-- A concrete play request used by witnesses. -/
def pWit : Play :=
  Play.mk "guild1" "chan1" "user1" (some (createSound "default" 1000 250)) none false

/-! ### Claim C1 -/

/-- Claim C1: `enqueuePlay` on a guild with no active queue creates the
bounded queue (capacity `MAX_QUEUE_SIZE = 6`), records it, and starts the
driver with the request as first item without enqueuing it; with an active
queue below capacity it appends to the tail; at capacity it silently drops
the request (the caller gets no error — `enqueuePlay` returns nothing);
hence 7 requests submitted while a run is active leave exactly 6 queued. -/
theorem enqueuePlay_spec_c1 (p : Play) (l : List Play) :
    enqueuePlay none p = (some [], EnqueueAction.started p)
    ∧ (l.length < 6 → enqueuePlay (some l) p = (some (l ++ [p]), EnqueueAction.queued))
    ∧ (6 ≤ l.length → enqueuePlay (some l) p = (some l, EnqueueAction.droppedFull))
    ∧ (∀ p1 p2 p3 p4 p5 p6 p7 : Play,
        submitAll (some []) [p1, p2, p3, p4, p5, p6, p7] = some [p1, p2, p3, p4, p5, p6]
        ∧ (enqueuePlay (some [p1, p2, p3, p4, p5, p6]) p7).2 = EnqueueAction.droppedFull) := by
  refine ⟨rfl, ?_, ?_, ?_⟩
  · intro h
    simp [enqueuePlay, MAX_QUEUE_SIZE, h]
  · intro h
    have hn : ¬ l.length < MAX_QUEUE_SIZE := by
      simp only [MAX_QUEUE_SIZE]
      omega
    simp [enqueuePlay, hn]
  · intro p1 p2 p3 p4 p5 p6 p7
    constructor
    · simp [submitAll, enqueuePlay, MAX_QUEUE_SIZE]
    · simp [enqueuePlay, MAX_QUEUE_SIZE]

/-- Witness for C1 at a concrete play. -/
theorem enqueuePlay_spec_c1_inst :
    enqueuePlay none pWit = (some [], EnqueueAction.started pWit)
    ∧ enqueuePlay (some []) pWit = (some [pWit], EnqueueAction.queued)
    ∧ enqueuePlay (some [pWit, pWit, pWit, pWit, pWit, pWit]) pWit
        = (some [pWit, pWit, pWit, pWit, pWit, pWit], EnqueueAction.droppedFull)
    ∧ submitAll (some []) [pWit, pWit, pWit, pWit, pWit, pWit, pWit]
        = some [pWit, pWit, pWit, pWit, pWit, pWit] := by
  have h0 := enqueuePlay_spec_c1 pWit []
  have h6 := enqueuePlay_spec_c1 pWit [pWit, pWit, pWit, pWit, pWit, pWit]
  exact ⟨h0.1, h0.2.1 (by simp), h6.2.2.1 (by simp),
    (h0.2.2.2 pWit pWit pWit pWit pWit pWit pWit).1⟩

/-! ### Claim C8 -/

/-- Claim C8: on a fresh run (`vc = nil`), a voice-join failure is terminal:
the driver logs the failure, deletes the guild's queue entry (whatever was
queued is discarded with it), and returns the error with no retry; a later
submission then finds the guild absent and starts a brand-new run. -/
theorem playSound_joinFail_c8 (fuel : Nat) (p p2 : Play) (q : Option (List Play)) :
    playSoundF false fuel p none q
      = ([Event.joinFail p.guildID p.channelID], none, PSResult.joinErr)
    ∧ enqueuePlay none p2 = (some [], EnqueueAction.started p2) :=
  ⟨rfl, rfl⟩

/-! ### Claim C9 -/

/-- Claim C9 counterexample: with `totalWeight = 0` (empty collection, or
all-zero weights after `Load`), `Random()` does not yield a nil result — it
panics inside `randomRange`, because `rand.Intn` panics on a non-positive
argument (modelled as `Except.error ()`). -/
theorem random_zero_total_panics_c9 :
    (SoundCollection.mk [] none 0).Random 0 = Except.error ()
    ∧ (SoundCollection.Load
        (SoundCollection.mk [createSound "a" 0 250] none 0)).Random 0 = Except.error ()
    ∧ (Except.error () : Except Unit (Option Sound)) ≠ Except.ok none :=
  ⟨rfl, rfl, fun h => Except.noConfusion h⟩

/-- Claim C9 (amended): with `soundRange ≤ 0` the `rand.Intn` call inside
`randomRange` panics, so `Random()` never returns (neither a clip nor nil). -/
theorem random_zero_total_error_c9 (sc : SoundCollection) (draw : Int)
    (h : sc.soundRange ≤ 0) :
    sc.Random draw = Except.error () := by
  simp [SoundCollection.Random, randomRange, h]

/-- Witness for C9 (amended) at the empty collection. -/
theorem random_zero_total_error_c9_inst :
    (SoundCollection.mk [] none 0).Random 5 = Except.error () :=
  random_zero_total_error_c9 (SoundCollection.mk [] none 0) 5 (by decide)

/-! ### Claim C10 -/

/-- Claim C10: whenever `0 < soundRange ≤ Σ weights` (the state `Load`
establishes) and the draw lies in `[0, soundRange)`, the cumulative walk
always hits a clip of the collection — the fall-through `nil` return of
`Random` is unreachable. -/
theorem random_total_nonnil_c10 (sc : SoundCollection) (draw : Int)
    (hle : sc.soundRange ≤ sumWeights sc.sounds)
    (h0 : 0 ≤ draw) (hlt : draw < sc.soundRange) :
    ∃ s, s ∈ sc.sounds ∧ sc.Random draw = Except.ok (some s) := by
  have hnr : ¬ sc.soundRange ≤ 0 := by omega
  obtain ⟨s, hmem, hw⟩ := soundsWalk_total sc.sounds 0 draw h0 (by omega)
  refine ⟨s, hmem, ?_⟩
  simp [SoundCollection.Random, randomRange, hnr, hw]

/-- Witness for C10 on the loaded `AIRHORN` catalog at the maximal draw. -/
theorem random_total_nonnil_c10_inst :
    ∃ s, s ∈ (SoundCollection.Load AIRHORN).sounds
      ∧ (SoundCollection.Load AIRHORN).Random 6459 = Except.ok (some s) :=
  random_total_nonnil_c10 (SoundCollection.Load AIRHORN) 6459
    (by decide) (by decide) (by decide)

/-! ### Claim C5 -/

/-- A collection whose first clip has weight 0, in the state `Load`
establishes (`soundRange` = Σ weights = 5). -/
def zeroFirst : SoundCollection :=
  SoundCollection.Load
    (SoundCollection.mk [createSound "a" 0 250, createSound "b" 5 250] none 0)

/-- Claim C5 counterexample: with a zero-weight first clip (totalWeight
positive), a draw of 0 selects the *second* clip, not the first — the
boundary sentence of the claim fails as universally stated. -/
theorem random_zero_first_weight_c5 :
    zeroFirst.sounds.head? = some (createSound "a" 0 250)
    ∧ zeroFirst.soundRange = sumWeights zeroFirst.sounds
    ∧ 0 < zeroFirst.soundRange
    ∧ zeroFirst.Random 0 = Except.ok (some (createSound "b" 5 250))
    ∧ createSound "b" 5 250 ≠ createSound "a" 0 250 :=
  ⟨rfl, rfl, by decide, rfl, by decide⟩

/-- Claim C5 (amended): with `soundRange` the accumulated Σ weights, all
weights nonnegative and a draw in `[0, soundRange)`, `Random` returns the
clip at the first index whose cumulative weight strictly exceeds the draw;
a draw of 0 selects the first clip *provided its weight is positive*, and a
draw of `soundRange - 1` selects the last clip *provided its weight is
positive*. -/
theorem random_walk_characterization_c5 (sc : SoundCollection) (draw : Int)
    (hrange : sc.soundRange = sumWeights sc.sounds)
    (hnn : ∀ s ∈ sc.sounds, 0 ≤ s.weight)
    (h0 : 0 ≤ draw) (hlt : draw < sc.soundRange) :
    (∀ (i : Nat) (hi : i < sc.sounds.length),
        sumWeights (sc.sounds.take i) ≤ draw →
        draw < sumWeights (sc.sounds.take (i + 1)) →
        sc.Random draw = Except.ok (some (sc.sounds.get ⟨i, hi⟩)))
    ∧ (∀ s0 t, sc.sounds = s0 :: t → 0 < s0.weight →
        sc.Random 0 = Except.ok (some s0))
    ∧ (∀ sl, sc.sounds.getLast? = some sl → 0 < sl.weight →
        sc.Random (sc.soundRange - 1) = Except.ok (some sl)) := by
  have hpos : 0 < sc.soundRange := lt_of_le_of_lt h0 hlt
  have hnr : ¬ sc.soundRange ≤ 0 := by omega
  refine ⟨?_, ?_, ?_⟩
  · intro i hi hlo hhi
    have hw := soundsWalk_get sc.sounds 0 draw i hi hnn (by omega) (by omega)
    simp [SoundCollection.Random, randomRange, hnr, hw]
  · intro s0 t hseq hw0
    have hw : soundsWalk sc.sounds 0 0 = some s0 := by
      rw [hseq]
      simp only [soundsWalk]
      rw [if_pos (by omega)]
    simp [SoundCollection.Random, randomRange, hnr, hw]
  · intro sl hlast hwl
    have hw : soundsWalk sc.sounds 0 (sc.soundRange - 1) = some sl := by
      have := soundsWalk_last sc.sounds 0 hnn sl hlast hwl
      rw [hrange]
      simpa using this
    simp [SoundCollection.Random, randomRange, hnr, hw]

/-- The spec's boundary scenario collection `{a: weight 1000, b: weight 10}`
in loaded state. -/
def specPair : SoundCollection :=
  SoundCollection.Load
    (SoundCollection.mk [createSound "a" 1000 250, createSound "b" 10 250] none 0)

/-- Witness for C5 (amended) on `{a:1000, b:10}`: draw 0 gives `a`, draw
`totalWeight - 1 = 1009` gives `b`. -/
theorem random_walk_characterization_c5_inst :
    specPair.Random 0 = Except.ok (some (createSound "a" 1000 250))
    ∧ specPair.Random (specPair.soundRange - 1)
        = Except.ok (some (createSound "b" 10 250)) := by
  have h := random_walk_characterization_c5 specPair 0
    (by decide) (by decide) (by decide) (by decide)
  exact ⟨h.2.1 (createSound "a" 1000 250) [createSound "b" 10 250] rfl (by decide),
    h.2.2 (createSound "b" 10 250) (by decide) (by decide)⟩

/-! ### Claim C6 -/

/-- Claim C6 counterexample: the length prefix is read as a **signed**
int16, not unsigned — a frame of length `0x8000` (high bit set) makes
`make([]byte, opuslen)` panic instead of decoding the frame. -/
theorem load_highbit_length_c6 :
    (soundLoadFrames (encodeFrames [List.replicate 32768 0])).2 = LoadResult.panicked
    ∧ LoadResult.panicked ≠ LoadResult.ok := by
  constructor
  · have h1 : encodeFrames [List.replicate 32768 (0 : Nat)]
        = 0 :: 128 :: (List.replicate 32768 0 ++ []) := by
      simp only [encodeFrames, List.length_replicate]
    rw [h1]
    simp only [soundLoadFrames]
    norm_num
  · decide

/-- Claim C6 (amended): for resources whose frame lengths are all below
`0x8000` (so the signed 16-bit read is nonnegative) the loader reads the
length-prefixed frames until clean end-of-resource (a success) and appends
them in file order; in particular `[0x02,0x00,0xAA,0xBB,0x00,0x00]` decodes
to exactly `[0xAA,0xBB]` and `[]`. -/
theorem load_roundtrip_c6 (frames : List (List Nat))
    (h : ∀ f ∈ frames, f.length < 32768) :
    soundLoadFrames (encodeFrames frames) = (frames, LoadResult.ok)
    ∧ soundLoadFrames [2, 0, 170, 187, 0, 0] = ([[170, 187], []], LoadResult.ok) := by
  refine ⟨soundLoadFrames_roundTrip frames h, ?_⟩
  have h2 : encodeFrames [[170, 187], []] = [2, 0, 170, 187, 0, 0] := rfl
  rw [← h2]
  exact soundLoadFrames_roundTrip _ (by decide)

/-- Witness for C6 (amended) on the spec's two-frame stream. -/
theorem load_roundtrip_c6_inst :
    soundLoadFrames (encodeFrames [[170, 187], []]) = ([[170, 187], []], LoadResult.ok) :=
  (load_roundtrip_c6 [[170, 187], []] (by decide)).1

/-! ### Claim C7 -/

/-- Claim C7 counterexample: a truncated length prefix (a single trailing
byte) is treated as clean end-of-resource and `Load` *succeeds*; and after a
mid-stream failure the frames read before the failure remain in the clip's
buffer, which is therefore not empty. -/
theorem load_truncated_prefix_c7 :
    Sound.Load (createSound "x" 1 250) (some [170]) = (createSound "x" 1 250, LoadResult.ok)
    ∧ (Sound.Load (createSound "x" 1 250) (some [1, 0, 170, 9, 0, 1])).1.buffer = [[170]]
    ∧ (Sound.Load (createSound "x" 1 250) (some [1, 0, 170, 9, 0, 1])).2 = LoadResult.err := by
  have e1 : soundLoadFrames [170] = ([], LoadResult.ok) := by
    simp [soundLoadFrames]
  have e2 : soundLoadFrames [1, 0, 170, 9, 0, 1] = ([[170]], LoadResult.err) := by
    simp [soundLoadFrames]
  refine ⟨?_, ?_, ?_⟩ <;> simp [Sound.Load, e1, e2, createSound]

/-- Claim C7 (amended): a missing resource and a truncated payload surface
an error (`Load` returns it), but a truncated length *prefix* — a single
dangling byte — is treated as clean end-of-resource and succeeds; frames
decoded before a failure stay in the buffer, so the frame sequence is empty
only when nothing was decoded before the failure. -/
theorem load_failure_modes_c7 (s : Sound) (frames : List (List Nat)) (b b0 b1 : Nat)
    (t : List Nat)
    (hf : ∀ f ∈ frames, f.length < 32768)
    (hraw : b0 + 256 * b1 < 32768)
    (htr : t.length < b0 + 256 * b1) :
    Sound.Load s none = (s, LoadResult.openErr)
    ∧ soundLoadFrames (encodeFrames frames ++ b0 :: b1 :: t) = (frames, LoadResult.err)
    ∧ soundLoadFrames (encodeFrames frames ++ [b]) = (frames, LoadResult.ok) := by
  refine ⟨rfl, ?_, ?_⟩
  · rw [soundLoadFrames_append frames _ hf]
    have hx : soundLoadFrames (b0 :: b1 :: t) = ([], LoadResult.err) := by
      have hh : ¬ 32768 ≤ b0 + 256 * b1 := by omega
      simp [soundLoadFrames, hh, htr]
    rw [hx]
    simp
  · rw [soundLoadFrames_append frames _ hf]
    have hx : soundLoadFrames [b] = ([], LoadResult.ok) := by
      simp [soundLoadFrames]
    rw [hx]
    simp

/-- Witness for C7 (amended) at concrete streams. -/
theorem load_failure_modes_c7_inst :
    Sound.Load (createSound "x" 1 250) none = (createSound "x" 1 250, LoadResult.openErr)
    ∧ soundLoadFrames (encodeFrames [[170, 187]] ++ 5 :: 0 :: [1, 2])
        = ([[170, 187]], LoadResult.err)
    ∧ soundLoadFrames (encodeFrames [[170, 187]] ++ [7]) = ([[170, 187]], LoadResult.ok) :=
  load_failure_modes_c7 (createSound "x" 1 250) [[170, 187]] 7 5 0 [1, 2]
    (by decide) (by decide) (by decide)

/-! ### Claim C2 -/

/-- Claim C2: after a (chainless) request finishes, the driver inspects the
guild's queue: if non-empty it dequeues the head and recurses on the *same*
voice connection (no join event ever occurs in a run handed a session); if
empty (or already deleted) it sleeps the just-finished clip's `PartDelay`,
deletes the guild's queue entry — leaving the guild absent — and
disconnects; a subsequent submission then finds the guild idle, starts a
brand-new run, and that fresh run opens with a new voice join. -/
theorem playSound_drain_c2 (jo : Bool) (fuel : Nat) (g ch u : String) (s : Sound)
    (fc : Bool) (vc : VC) (q : Option (List Play)) :
    (∀ x restQ, q = some (x :: restQ) →
      playSoundF jo (fuel + 1) (Play.mk g ch u (some s) none fc) (some vc) q
        = (prePlay vc (Play.mk g ch u (some s) none fc) s
             ++ (playSoundF jo fuel x (some (VC.mk ch)) (some restQ)).1,
           (playSoundF jo fuel x (some (VC.mk ch)) (some restQ)).2.1, PSResult.ok))
    ∧ (chanLen q = 0 →
      playSoundF jo (fuel + 1) (Play.mk g ch u (some s) none fc) (some vc) q
        = (prePlay vc (Play.mk g ch u (some s) none fc) s
             ++ [Event.sleepMs s.partDelay, Event.deleteQueue g, Event.disconnect],
           none, PSResult.ok))
    ∧ (playSoundF jo fuel (Play.mk g ch u (some s) none fc) (some vc) q).1.any
        Event.isJoinEv = false
    ∧ enqueuePlay none (Play.mk g ch u (some s) none fc)
        = (some [], EnqueueAction.started (Play.mk g ch u (some s) none fc))
    ∧ (playSoundF true (fuel + 1) (Play.mk g ch u (some s) none fc) none q).1.head?
        = some (Event.join g ch) := by
  refine ⟨?_, ?_, ?_, rfl, ?_⟩
  · intro x restQ hq
    subst hq
    simp [playSoundF, playAcquiredF, Play.sound, Play.next, Play.channelID, Play.guildID]
  · intro hq
    rcases q with _ | l
    · simp [playSoundF, playAcquiredF, Play.sound, Play.next, Play.channelID, Play.guildID]
    · have hl : l = [] := by
        simpa [chanLen] using hq
      subst hl
      simp [playSoundF, playAcquiredF, Play.sound, Play.next, Play.channelID, Play.guildID]
  · simpa [playSoundF] using
      playAcquiredF_no_join fuel (Play.mk g ch u (some s) none fc) vc q
  · simp [playSoundF, playAcquiredF, Play.guildID, Play.channelID]

/-- Witness for C2: concrete runs over a one-element queue and over an empty
queue. -/
theorem playSound_drain_c2_inst :
    playSoundF true 2 pWit (some (VC.mk "chan1")) (some [pWit])
      = (prePlay (VC.mk "chan1") pWit (createSound "default" 1000 250)
           ++ (playSoundF true 1 pWit (some (VC.mk "chan1")) (some [])).1,
         (playSoundF true 1 pWit (some (VC.mk "chan1")) (some [])).2.1, PSResult.ok)
    ∧ playSoundF true 2 pWit (some (VC.mk "chan1")) none
      = (prePlay (VC.mk "chan1") pWit (createSound "default" 1000 250)
           ++ [Event.sleepMs 250, Event.deleteQueue "guild1", Event.disconnect],
         none, PSResult.ok) := by
  have h1 := playSound_drain_c2 true 1 "guild1" "chan1" "user1"
    (createSound "default" 1000 250) false (VC.mk "chan1") (some [pWit])
  have h2 := playSound_drain_c2 true 1 "guild1" "chan1" "user1"
    (createSound "default" 1000 250) false (VC.mk "chan1") none
  exact ⟨h1.1 pWit [] rfl, h2.2.1 rfl⟩

/-! ### Claim C4 -/

/-- Claim C4: on a collection with a chain target `X`, a successful
`createPlay` builds exactly two linked requests — the follow-up replicates
guild, channel, user and the forced flag, its clip is the result of
`X.Random()`, and it has no further link; the forced flag of the pair only
reflects whether an explicit clip was passed; and during playback the
follow-up runs immediately after its parent on the same voice connection,
before anything from the guild queue (whose handling is inside `tailEvs`). -/
theorem createPlay_chain_c4 (u g ch : String) (coll target : SoundCollection)
    (sndArg : Option Sound) (draw1 draw2 : Int) (play : Play)
    (hch : coll.chainWith = some target)
    (hcp : createPlay u g (some ch) coll sndArg draw1 draw2 = Except.ok (some play)) :
    ∃ nx, play.next = some nx
      ∧ nx.guildID = play.guildID ∧ nx.channelID = play.channelID
      ∧ nx.userID = play.userID ∧ nx.forced = play.forced
      ∧ target.Random draw2 = Except.ok nx.sound
      ∧ nx.next = none
      ∧ (∀ s0, sndArg = some s0 → play.forced = true)
      ∧ (sndArg = none → play.forced = false)
      ∧ (∀ (jo : Bool) (fuel : Nat) (vc : VC) (q : Option (List Play)) (s : Sound),
          play.sound = some s →
          ∃ tailEvs qr rr,
            playSoundF jo (fuel + 1) play (some vc) q
              = (prePlay vc play s
                  ++ (playSoundF jo fuel nx (some (VC.mk play.channelID)) q).1
                  ++ tailEvs, qr, rr)) := by
  have hback : ∀ (play2 nx2 : Play), play2.next = some nx2 →
      ∀ (jo : Bool) (fuel : Nat) (vc : VC) (q : Option (List Play)) (s : Sound),
        play2.sound = some s →
        ∃ tailEvs qr rr,
          playSoundF jo (fuel + 1) play2 (some vc) q
            = (prePlay vc play2 s
                ++ (playSoundF jo fuel nx2 (some (VC.mk play2.channelID)) q).1
                ++ tailEvs, qr, rr) := by
    intro play2 nx2 hn jo fuel vc q s hs
    rcases play2 with ⟨g2, ch2, u2, snd2, nxt2, fc2⟩
    simp only [Play.next] at hn
    simp only [Play.sound] at hs
    subst hn
    subst hs
    simp only [playSoundF, playAcquiredF, Play.sound, Play.next, Play.channelID, Play.guildID]
    rcases hc : playAcquiredF fuel nx2 (VC.mk ch2) q with ⟨cev, cq, cr⟩
    rcases cq with _ | ⟨_ | ⟨x, restQ⟩⟩
    · exact ⟨[Event.sleepMs s.partDelay, Event.deleteQueue g2, Event.disconnect],
        none, PSResult.ok, by simp⟩
    · exact ⟨[Event.sleepMs s.partDelay, Event.deleteQueue g2, Event.disconnect],
        none, PSResult.ok, by simp⟩
    · exact ⟨(playAcquiredF fuel x (VC.mk ch2) (some restQ)).1,
        (playAcquiredF fuel x (VC.mk ch2) (some restQ)).2.1, PSResult.ok, by simp⟩
  cases sndArg with
  | some s0 =>
    simp only [createPlay, hch] at hcp
    cases hr2 : target.Random draw2 with
    | error e =>
      rw [hr2] at hcp
      simp at hcp
    | ok nextSnd =>
      rw [hr2] at hcp
      simp only [Except.ok.injEq, Option.some.injEq] at hcp
      subst hcp
      refine ⟨Play.mk g ch u nextSnd none true, rfl, rfl, rfl, rfl, rfl, ?_, rfl,
        fun _ _ => rfl, by intro h; exact Option.noConfusion h, ?_⟩
      · rfl
      · exact hback _ _ rfl
  | none =>
    simp only [createPlay, hch] at hcp
    cases hr1 : coll.Random draw1 with
    | error e =>
      rw [hr1] at hcp
      simp at hcp
    | ok r =>
      rw [hr1] at hcp
      cases hr2 : target.Random draw2 with
      | error e =>
        rw [hr2] at hcp
        simp at hcp
      | ok nextSnd =>
        rw [hr2] at hcp
        simp only [Except.ok.injEq, Option.some.injEq] at hcp
        subst hcp
        refine ⟨Play.mk g ch u nextSnd none false, rfl, rfl, rfl, rfl, rfl, ?_, rfl,
          by intro s0 h; exact Option.noConfusion h, fun _ => rfl, ?_⟩
        · rfl
        · exact hback _ _ rfl

/-- The play built by `createPlay` on the loaded `KHALED` catalog with draws
0/0: first clip `one` (random, not forced) chained with `AIRHORN`'s
`default`. -/
def playK : Play :=
  Play.mk "guild1" "chan1" "user1" (some (createSound "one" 1 250))
    (some (Play.mk "guild1" "chan1" "user1" (some (createSound "default" 1000 250))
      none false))
    false

/-- Witness for C4 on the loaded `KHALED` catalog (chain target: loaded
`AIRHORN`). -/
theorem createPlay_chain_c4_inst :
    ∃ nx, playK.next = some nx
      ∧ nx.guildID = playK.guildID ∧ nx.channelID = playK.channelID
      ∧ nx.userID = playK.userID ∧ nx.forced = playK.forced
      ∧ (SoundCollection.Load AIRHORN).Random 0 = Except.ok nx.sound
      ∧ nx.next = none
      ∧ (∀ s0, (none : Option Sound) = some s0 → playK.forced = true)
      ∧ ((none : Option Sound) = none → playK.forced = false)
      ∧ (∀ (jo : Bool) (fuel : Nat) (vc : VC) (q : Option (List Play)) (s : Sound),
          playK.sound = some s →
          ∃ tailEvs qr rr,
            playSoundF jo (fuel + 1) playK (some vc) q
              = (prePlay vc playK s
                  ++ (playSoundF jo fuel nx (some (VC.mk playK.channelID)) q).1
                  ++ tailEvs, qr, rr)) :=
  createPlay_chain_c4 "user1" "guild1" "chan1" loadedKHALED
    (SoundCollection.Load AIRHORN) none 0 0 playK rfl rfl

/-! ### Claim C3 -/

/-- Claim C3 counterexample: `enqueuePlay`'s existence check and its
create-and-start act are two separate steps (the source disclaims thread
safety); two submitters that both pass the check before either acts each
start a playback run, so the guild reaches 2 concurrent in-flight runs —
the "at most one run at every instant" sentence fails. -/
theorem racy_double_start_c3 :
    (List.foldl racyStep (RaceState.mk false 0 0 [SubPC.ready, SubPC.ready])
      [RAction.check 0, RAction.check 1, RAction.act 0, RAction.act 1]).runs = 2
    ∧ ¬ ((List.foldl racyStep (RaceState.mk false 0 0 [SubPC.ready, SubPC.ready])
      [RAction.check 0, RAction.check 1, RAction.act 0, RAction.act 1]).runs ≤ 1) := by
  constructor <;> decide

/-- Claim C3 (amended): when each submission's check-then-act runs
atomically (no interleaving between bot.go line 507 and lines 509-516), the
single-flight invariant holds along every action sequence from the idle
state: at most one run is in flight for the guild, the queue-map entry
exists iff a run is in flight, and only a submission that observes the
guild absent ever starts a run. -/
theorem atomic_single_flight_c3 (acts : List AAction) :
    (List.foldl atomicStep (AState.mk false 0 0) acts).runs ≤ 1
    ∧ ((List.foldl atomicStep (AState.mk false 0 0) acts).entry = true
        ↔ (List.foldl atomicStep (AState.mk false 0 0) acts).runs = 1)
    ∧ (∀ (s : AState) (a : AAction), s.runs < (atomicStep s a).runs →
        s.entry = false ∧ a = AAction.submit) := by
  have hinv := foldl_atomicStep_inv acts (AState.mk false 0 0)
    (And.intro (by norm_num) (by simp))
  refine ⟨hinv.1, hinv.2, ?_⟩
  intro s a hlt
  cases a with
  | submit =>
    refine ⟨?_, rfl⟩
    cases hb : s.entry with
    | true =>
      exfalso
      simp only [atomicStep, hb, if_true] at hlt
      split at hlt <;> simp at hlt
    | false => rfl
  | finish =>
    exfalso
    simp only [atomicStep] at hlt
    split at hlt
    · omega
    · split at hlt
      · simp at hlt
      · simp at hlt
        omega

/-- Witness for C3 (amended) at a single submission from idle. -/
theorem atomic_single_flight_c3_inst :
    (List.foldl atomicStep (AState.mk false 0 0) [AAction.submit]).runs ≤ 1
    ∧ (AState.mk false 0 0).entry = false ∧ AAction.submit = AAction.submit := by
  have h := atomic_single_flight_c3 [AAction.submit]
  exact ⟨h.1, (h.2.2 (AState.mk false 0 0) AAction.submit (by decide)).1,
    (h.2.2 (AState.mk false 0 0) AAction.submit (by decide)).2⟩

end Airhorn
